import Mathlib

/-!
# Verification of the sweetsour-phenology plant–pollinator ODE models

Shallow embedding of the three C++ translation units of the repository:

* `one_plant.cpp` (src/unnamed/part_001): `OnePlantSystemFunction`, `OnePlantObserver`,
  `one_plant_ode` — single plant, constant resource input;
* `one_plant_season.cpp` (src/unnamed/part_000): `OnePlantSeasonSystemFunction`,
  `one_plant_season_ode` — single plant, Weibull-pulse resource input;
* `src/landscape_constantF.cpp`: `LandConstFSystemFunction`, `landscape_constantF_ode`
  — multi-plant landscape on proportions.

Machine doubles are embedded as real numbers, `std::pow` as `Real.rpow`,
`std::exp` as `Real.exp`, and `std::vector`/matrix state as tuples and
`Fin n`-indexed functions.  The boost `integrate_const` driver and the stepper
type aliases live outside the repository's `src/` tree; they are modelled from
the specification where noted.
-/

namespace SweetSour

/-- Parameter block of `OnePlantSystemFunction` (part_001, lines 11–62).
The C++ constructor stores `s_0_h = pow(s_0, h)` and `f_0_u = pow(f_0, u)`;
those cached fields are the definitions `s_0_h`/`f_0_u` below. -/
structure OnePlantParams where
  m : ℝ
  R : ℝ
  d_yp : ℝ
  d_b0 : ℝ
  d_bp : ℝ
  g_yp : ℝ
  g_b0 : ℝ
  g_bp : ℝ
  L_0 : ℝ
  P_max : ℝ
  q : ℝ
  s_0 : ℝ
  h : ℝ
  f_0 : ℝ
  F_tilde : ℝ
  u : ℝ

/-- Cached constant `s_0_h = std::pow(s_0_, h_)` of the C++ constructor. -/
noncomputable def OnePlantParams.s_0_h (p : OnePlantParams) : ℝ := p.s_0 ^ p.h

/-- Cached constant `f_0_u = std::pow(f_0_, u_)` of the C++ constructor. -/
noncomputable def OnePlantParams.f_0_u (p : OnePlantParams) : ℝ := p.f_0 ^ p.u

/-- Pollinator visitation rate `P` as computed inside both single-plant
right-hand sides (part_001 lines 70–77 and part_000 lines 82–87, which are
textually identical).  Arguments `s_0_h` and `f_0_u` receive the cached
powers stored by the constructors. -/
noncomputable def pollinationP (P_max q s_0_h h f_0_u F_tilde u Y B N : ℝ) : ℝ :=
  let F := Y + B + N
  let FF_u := (F / (F + F_tilde)) ^ u
  let phi := FF_u / (f_0_u + FF_u)
  let psi := s_0_h / (s_0_h + (B / F) ^ h)
  P_max * (q * psi + (1 - q) * phi)

/-- `OnePlantSystemFunction::operator()` (part_001, lines 64–100): the
constant-input single-plant vector field.  State is `(Y, B, N)`. -/
noncomputable def onePlantRHS (p : OnePlantParams) (x : ℝ × ℝ × ℝ) (t : ℝ) : ℝ × ℝ × ℝ :=
  let Y := x.1
  let B := x.2.1
  let N := x.2.2
  let F := Y + B + N
  let P := pollinationP p.P_max p.q p.s_0_h p.h p.f_0_u p.F_tilde p.u Y B N
  let PF := P / F
  let Lambda := PF / (p.L_0 + PF)
  let gamma_y := p.g_yp * Lambda
  let gamma_b := p.g_b0 + p.g_bp * Lambda
  let delta_y := p.d_yp * Lambda
  let delta_b := p.d_b0 + p.d_bp * Lambda
  let disp_y := delta_y * Y / F + gamma_y
  let disp_b := delta_b * B / F + gamma_b
  (disp_y * N - p.m * Y, disp_b * N - p.m * B, p.R - N * (p.m + disp_y + disp_b))

/-- Parameter block of `OnePlantSeasonSystemFunction` (part_000, lines 11–71). -/
structure OnePlantSeasonParams where
  m : ℝ
  d_yp : ℝ
  d_b0 : ℝ
  d_bp : ℝ
  g_yp : ℝ
  g_b0 : ℝ
  g_bp : ℝ
  L_0 : ℝ
  P_max : ℝ
  q : ℝ
  s_0 : ℝ
  h : ℝ
  f_0 : ℝ
  F_tilde : ℝ
  u : ℝ
  R_hat : ℝ
  t0 : ℝ
  k : ℝ
  lambda : ℝ

/-- Cached constant `s_0_h` of the seasonal constructor. -/
noncomputable def OnePlantSeasonParams.s_0_h (p : OnePlantSeasonParams) : ℝ := p.s_0 ^ p.h

/-- Cached constant `f_0_u` of the seasonal constructor. -/
noncomputable def OnePlantSeasonParams.f_0_u (p : OnePlantSeasonParams) : ℝ := p.f_0 ^ p.u

/-- The Weibull-pulse resource inflow of the seasonal right-hand side
(part_000, lines 79–80). -/
noncomputable def seasonR (p : OnePlantSeasonParams) (t : ℝ) : ℝ :=
  p.R_hat * (p.k / p.lambda) * ((t + p.t0) / p.lambda) ^ (p.k - 1) *
    Real.exp (-1 * ((t + p.t0) / p.lambda) ^ p.k)

/-- `OnePlantSeasonSystemFunction::operator()` (part_000, lines 73–110). -/
noncomputable def onePlantSeasonRHS (p : OnePlantSeasonParams) (x : ℝ × ℝ × ℝ) (t : ℝ) :
    ℝ × ℝ × ℝ :=
  let Y := x.1
  let B := x.2.1
  let N := x.2.2
  let R := seasonR p t
  let F := Y + B + N
  let P := pollinationP p.P_max p.q p.s_0_h p.h p.f_0_u p.F_tilde p.u Y B N
  let PF := P / F
  let Lambda := PF / (p.L_0 + PF)
  let gamma_y := p.g_yp * Lambda
  let gamma_b := p.g_b0 + p.g_bp * Lambda
  let delta_y := p.d_yp * Lambda
  let delta_b := p.d_b0 + p.d_bp * Lambda
  let disp_y := delta_y * Y / F + gamma_y
  let disp_b := delta_b * B / F + gamma_b
  (disp_y * N - p.m * Y, disp_b * N - p.m * B, R - N * (p.m + disp_y + disp_b))

/-- The derived "P" column recomputed per recorded sample by the output
assembly of the constant-input entry point `one_plant_ode`
(part_001, lines 159–172).  Note that it forms `phi` from `F_u = pow(F, u)`,
not from the ratio `F/(F+F_tilde)` used by the right-hand side. -/
noncomputable def onePlantOutputP (p : OnePlantParams) (x : ℝ × ℝ × ℝ) : ℝ :=
  let F := x.1 + x.2.1 + x.2.2
  let F_u := F ^ p.u
  let phi := F_u / (p.f_0 ^ p.u + F_u)
  let psi := p.s_0 ^ p.h / (p.s_0 ^ p.h + (x.2.1 / F) ^ p.h)
  p.P_max * (p.q * psi + (1 - p.q) * phi)

/-- The derived "P" column recomputed by the output assembly of the seasonal
entry point `one_plant_season_ode` (part_000, lines 161–174); this one uses
`FF_u = pow(F/(F+F_tilde), u)` like the right-hand side does. -/
noncomputable def onePlantSeasonOutputP (p : OnePlantSeasonParams) (x : ℝ × ℝ × ℝ) : ℝ :=
  let F := x.1 + x.2.1 + x.2.2
  let FF_u := (F / (F + p.F_tilde)) ^ p.u
  let phi := FF_u / (p.f_0 ^ p.u + FF_u)
  let psi := p.s_0 ^ p.h / (p.s_0 ^ p.h + (x.2.1 / F) ^ p.h)
  p.P_max * (p.q * psi + (1 - p.q) * phi)

/-- The single-plant right-hand side written exactly as the specification's
§4.1 algebra states it (used to compare code against spec). -/
noncomputable def onePlantRHSspec (p : OnePlantParams) (Y B N t : ℝ) : ℝ × ℝ × ℝ :=
  let F := Y + B + N
  let FF_u := (F / (F + p.F_tilde)) ^ p.u
  let phi := FF_u / (p.f_0 ^ p.u + FF_u)
  let psi := p.s_0 ^ p.h / (p.s_0 ^ p.h + (B / F) ^ p.h)
  let P := p.P_max * (p.q * psi + (1 - p.q) * phi)
  let Lambda := (P / F) / (p.L_0 + P / F)
  let gamma_y := p.g_yp * Lambda
  let gamma_b := p.g_b0 + p.g_bp * Lambda
  let delta_y := p.d_yp * Lambda
  let delta_b := p.d_b0 + p.d_bp * Lambda
  let disp_y := delta_y * Y / F + gamma_y
  let disp_b := delta_b * B / F + gamma_b
  (disp_y * N - p.m * Y, disp_b * N - p.m * B, p.R - N * (p.m + disp_y + disp_b))

/-- Parameter block of `LandConstFSystemFunction`
(src/landscape_constantF.cpp, lines 19–56): per-plant vectors plus the shared
shape parameter `u` and external-competition constant `X`. -/
structure LandParams (n_plants : ℕ) where
  m : Fin n_plants → ℝ
  d_yp : Fin n_plants → ℝ
  d_b0 : Fin n_plants → ℝ
  d_bp : Fin n_plants → ℝ
  g_yp : Fin n_plants → ℝ
  g_b0 : Fin n_plants → ℝ
  g_bp : Fin n_plants → ℝ
  L_0 : Fin n_plants → ℝ
  u : ℝ
  X : ℝ

/-- `LandConstFSystemFunction::make_weights` (lines 71–87): raw weight
`pow(1 - B_i, u)` per plant, then division of every entry by
`X + (sum of raw weights)`. -/
noncomputable def make_weights {n : ℕ} (p : LandParams n) (x : Fin n → ℝ × ℝ) : Fin n → ℝ :=
  let wts := fun i => (1 - (x i).2) ^ p.u
  let wt_sum := ∑ i, wts i
  fun i => wts i / (p.X + wt_sum)

/-- `LandConstFSystemFunction::one_plant` (lines 95–124): derivative of plant
`i`'s `(Y, B)` row, given the weights vector computed for the current state. -/
noncomputable def one_plant {n : ℕ} (p : LandParams n) (weights : Fin n → ℝ) (i : Fin n)
    (x : Fin n → ℝ × ℝ) (t : ℝ) : ℝ × ℝ :=
  let Y := (x i).1
  let B := (x i).2
  let N := 1 - Y - B
  let P := weights i
  let Lambda := P / (p.L_0 i + P)
  let gamma_y := p.g_yp i * Lambda
  let gamma_b := p.g_b0 i + p.g_bp i * Lambda
  let delta_y := p.d_yp i * Lambda
  let delta_b := p.d_b0 i + p.d_bp i * Lambda
  let disp_y := delta_y * Y + gamma_y
  let disp_b := delta_b * B + gamma_b
  (disp_y * N - p.m i * Y, disp_b * N - p.m i * B)

/-- `LandConstFSystemFunction::operator()` (lines 58–69): recompute the
weights from the state passed in, then fill every plant's derivative row. -/
noncomputable def landRHS {n : ℕ} (p : LandParams n) (x : Fin n → ℝ × ℝ) (t : ℝ) :
    Fin n → ℝ × ℝ :=
  fun i => one_plant p (make_weights p x) i x t

/-- Concrete parameter values used below to instantiate single-plant theorems
(all saturation constants 1, mixing weight `q = 0`, exponents 1). -/
noncomputable def pC5 : OnePlantParams :=
  ⟨0, 0, 0, 0, 0, 0, 0, 0, 1, 1, 0, 1, 1, 1, 1, 1⟩

/-- Concrete seasonal parameters used to instantiate seasonal theorems. -/
noncomputable def psC : OnePlantSeasonParams :=
  ⟨1, 1, 1, 1, 1, 1, 1, 1, 1, 1, 1, 1, 1, 1, 1, 1, 1, 1, 1⟩

/-- A two-plant landscape parameter set with every per-plant constant 1,
`u = 1` and `X = 1`. -/
noncomputable def landP2 : LandParams 2 :=
  ⟨fun _ => 1, fun _ => 1, fun _ => 1, fun _ => 1, fun _ => 1, fun _ => 1, fun _ => 1,
   fun _ => 1, 1, 1⟩

/-- A two-plant state whose first plant is fully visited (`B = 1`). -/
noncomputable def xB1 : Fin 2 → ℝ × ℝ := ![(0, 1), (0, 0)]

/-- Modelled from the spec: the stepper aliases `VecStepperType`/`MatStepperType`
are declared in the repository's `ode.h`, which is not under `src/`.  §4.4 fixes
a fixed-step explicit scheme — "e.g., a classical 4th-order fixed-step method" —
that must be state-shape-agnostic, so the stepper is modelled as the classical
fourth-order method over any real vector space of states. -/
noncomputable def rk4Step {S : Type*} [AddCommGroup S] [Module ℝ S] (f : S → ℝ → S)
    (x : S) (t dt : ℝ) : S :=
  let k1 := f x t
  let k2 := f (x + (dt / 2) • k1) (t + dt / 2)
  let k3 := f (x + (dt / 2) • k2) (t + dt / 2)
  let k4 := f (x + dt • k3) (t + dt)
  x + (dt / 6) • (k1 + (2 : ℝ) • k2 + (2 : ℝ) • k3 + k4)

/-- State after `k` completed integration steps; the step starting at sample
`k` is taken at time `k * dt`, exactly how `integrate_const` recomputes the
loop time as `start_time + step * dt`. -/
noncomputable def trajStates {S : Type*} [AddCommGroup S] [Module ℝ S] (f : S → ℝ → S)
    (x0 : S) (dt : ℝ) : ℕ → S
  | 0 => x0
  | n + 1 => rk4Step f (trajStates f x0 dt n) ((n : ℝ) * dt) dt

/-- Number of completed steps of the `boost::numeric::odeint::integrate_const`
loop from time `0` to `max_t` with step `dt`: it steps while the next time
`(step+1)*dt` does not exceed `max_t`. -/
noncomputable def n_steps (dt max_t : ℝ) : ℕ := ⌊max_t / dt⌋₊

/-- Modelled from the spec: `boost::numeric::odeint::integrate_const` is
external library code invoked by all three entry points; per §4.4/§4.5/§8 the
observer is handed one `(state, time)` pair at the initial time 0 and one after
each completed step, at times spaced by `dt`, so the recorded trajectory is the
list of pairs `(k*dt, state after k steps)` for `k = 0, …, n_steps`. -/
noncomputable def integrate_const {S : Type*} [AddCommGroup S] [Module ℝ S]
    (f : S → ℝ → S) (x0 : S) (max_t dt : ℝ) : List (ℝ × S) :=
  (List.range (n_steps dt max_t + 1)).map fun (k : ℕ) => ((k : ℝ) * dt, trajStates f x0 dt k)

/-- `one_plant_ode` (part_001, lines 121–157): build the initial state
`(Y0, B0, N0)` and drive `integrate_const`; the result is the trajectory that
`OnePlantObserver` records into its parallel `data`/`time` sequences. -/
noncomputable def one_plant_ode (p : OnePlantParams) (dt max_t Y0 B0 N0 : ℝ) :
    List (ℝ × (ℝ × ℝ × ℝ)) :=
  integrate_const (onePlantRHS p) (Y0, B0, N0) max_t dt

/-- Modelled from the spec: `len_check` is declared in the repository's
`ode.h`, not under `src/`; per §6/§7 it reports a dimension mismatch —
accumulated into the error flag — when the vector's length differs from the
plant count. -/
def len_check (err : Bool) (v : List ℝ) (np : ℕ) : Bool := err || decide (v.length ≠ np)

/-- An Rcpp `NumericMatrix` result: its two dimensions plus an entry map. -/
structure NumericMatrix where
  nrow : ℕ
  ncol : ℕ
  entry : ℕ → ℕ → ℝ

/-- `landscape_constantF_ode` (src/landscape_constantF.cpp, lines 135–202):
validate the nine per-plant vectors against `m`'s length, returning the empty
`NumericMatrix(0,0)` sentinel on mismatch; otherwise integrate and assemble
the `(t, p, Y, B, P)` output table, recomputing the weights per sample. -/
noncomputable def landscape_constantF_ode (m d_yp d_b0 d_bp g_yp g_b0 g_bp L_0 : List ℝ)
    (u X : ℝ) (Y0 B0 : List ℝ) (dt max_t : ℝ) : NumericMatrix :=
  let np := m.length
  let err := len_check (len_check (len_check (len_check (len_check (len_check (len_check
    (len_check (len_check false d_yp np) d_b0 np) d_bp np) g_yp np) g_b0 np) g_bp np)
    L_0 np) Y0 np) B0 np
  if err then ⟨0, 0, fun _ _ => 0⟩
  else
    let p : LandParams np :=
      ⟨fun i => m.getD i.val 0, fun i => d_yp.getD i.val 0, fun i => d_b0.getD i.val 0,
       fun i => d_bp.getD i.val 0, fun i => g_yp.getD i.val 0, fun i => g_b0.getD i.val 0,
       fun i => g_bp.getD i.val 0, fun i => L_0.getD i.val 0, u, X⟩
    let x0 : Fin np → ℝ × ℝ := fun i => (Y0.getD i.val 0, B0.getD i.val 0)
    let obs := integrate_const (landRHS p) x0 max_t dt
    ⟨obs.length * np, 5, fun r c =>
      if hk : r % np < np then
        let s := obs.getD (r / np) (0, fun _ => (0, 0))
        if c = 0 then s.1
        else if c = 1 then (r % np : ℝ)
        else if c = 2 then (s.2 ⟨r % np, hk⟩).1
        else if c = 3 then (s.2 ⟨r % np, hk⟩).2
        else make_weights p s.2 ⟨r % np, hk⟩
      else 0⟩

/-- Equality of the per-plant parameters of plants `i` and `j`. -/
def SamePlantParams {n : ℕ} (p : LandParams n) (i j : Fin n) : Prop :=
  p.m i = p.m j ∧ p.d_yp i = p.d_yp j ∧ p.d_b0 i = p.d_b0 j ∧ p.d_bp i = p.d_bp j ∧
  p.g_yp i = p.g_yp j ∧ p.g_b0 i = p.g_b0 j ∧ p.g_bp i = p.g_bp j ∧ p.L_0 i = p.L_0 j

/-- Parameters of the specification's §8 concrete single-plant scenario:
`m=0.1, R=1, d_yp=0.2, d_b0=0.05, d_bp=0.1, g_yp=0.3, g_b0=0.05, g_bp=0.1,
L_0=1, P_max=5, q=0.5, s_0=1, h=2, f_0=1, F_tilde=1, u=2`. -/
noncomputable def p7 : OnePlantParams :=
  ⟨1/10, 1, 1/5, 1/20, 1/10, 3/10, 1/20, 1/10, 1, 5, 1/2, 1, 2, 1, 1, 2⟩

/-! Certified dyadic interval arithmetic, used to verify sign facts about the
concrete §8 single-plant trajectory.  A mantissa `a : ℤ` denotes the real
number `a / 2^64`; every rounding is outward, so an interval computed below
always encloses the corresponding exact real computation. -/

/-- The fixed-point scale: mantissa `a` denotes `a / 2^64`. -/
def den64 : ℤ := 2 ^ 64

/-- Real value of a fixed-point mantissa. -/
noncomputable def zval (a : ℤ) : ℝ := (a : ℝ) / 2 ^ 64

/-- Mantissa division rounding toward `-∞`. -/
def fdivZ (a b : ℤ) : ℤ := Int.fdiv a b

/-- Mantissa division rounding toward `+∞`. -/
def cdivZ (a b : ℤ) : ℤ := -Int.fdiv (-a) b

/-- A dyadic interval `[lo/2^64, hi/2^64]`. -/
structure ZI where
  lo : ℤ
  hi : ℤ

/-- `x` lies in the interval `I`. -/
def ZI.mem (x : ℝ) (I : ZI) : Prop := zval I.lo ≤ x ∧ x ≤ zval I.hi

/-- Interval addition (exact at fixed scale). -/
def ZI.add (I J : ZI) : ZI := ⟨I.lo + J.lo, I.hi + J.hi⟩

/-- Interval negation (exact). -/
def ZI.neg (I : ZI) : ZI := ⟨-I.hi, -I.lo⟩

/-- Interval subtraction. -/
def ZI.sub (I J : ZI) : ZI := ZI.add I (ZI.neg J)

/-- Interval multiplication: corner products at scale `2^128`, rescaled with
outward rounding. -/
def ZI.mul (I J : ZI) : ZI :=
  ⟨fdivZ (min (min (I.lo * J.lo) (I.lo * J.hi)) (min (I.hi * J.lo) (I.hi * J.hi))) den64,
   cdivZ (max (max (I.lo * J.lo) (I.lo * J.hi)) (max (I.hi * J.lo) (I.hi * J.hi))) den64⟩

/-- Interval reciprocal; sound when `0 < lo`. -/
def ZI.inv (J : ZI) : ZI := ⟨fdivZ (den64 * den64) J.hi, cdivZ (den64 * den64) J.lo⟩

/-- Interval division; sound when the divisor's `lo` is positive. -/
def ZI.div (I J : ZI) : ZI := ZI.mul I (ZI.inv J)

/-- Scale an interval by the nonnegative rational `num/denom`. -/
def ZI.scale (num denom : ℤ) (I : ZI) : ZI :=
  ⟨fdivZ (num * I.lo) denom, cdivZ (num * I.hi) denom⟩

/-- Point interval enclosing the rational `num/denom` (for `denom > 0`). -/
def ZI.point (num denom : ℤ) : ZI :=
  ⟨fdivZ (num * den64) denom, cdivZ (num * den64) denom⟩

/-- Componentwise enclosure of a state triple. -/
def memZ3 (v : ℝ × ℝ × ℝ) (I : ZI × ZI × ZI) : Prop :=
  ZI.mem v.1 I.1 ∧ ZI.mem v.2.1 I.2.1 ∧ ZI.mem v.2.2 I.2.2

/-- Componentwise interval addition on triples. -/
def addZ3 (I J : ZI × ZI × ZI) : ZI × ZI × ZI :=
  (ZI.add I.1 J.1, ZI.add I.2.1 J.2.1, ZI.add I.2.2 J.2.2)

/-- Componentwise scaling on triples. -/
def scaleZ3 (num denom : ℤ) (I : ZI × ZI × ZI) : ZI × ZI × ZI :=
  (ZI.scale num denom I.1, ZI.scale num denom I.2.1, ZI.scale num denom I.2.2)

/-- Interval evaluation of `onePlantRHS p7` (the field is autonomous, so time
plays no role); mirrors the code line by line with `p7`'s rational constants. -/
def rhsI7 (I : ZI × ZI × ZI) : ZI × ZI × ZI :=
  let Y := I.1
  let B := I.2.1
  let N := I.2.2
  let F := ZI.add (ZI.add Y B) N
  let Fp1 := ZI.add F (ZI.point 1 1)
  let FF := ZI.div F Fp1
  let FFu := ZI.mul FF FF
  let phiD := ZI.add (ZI.point 1 1) FFu
  let phi := ZI.div FFu phiD
  let BF := ZI.div B F
  let psiD := ZI.add (ZI.point 1 1) (ZI.mul BF BF)
  let psi := ZI.div (ZI.point 1 1) psiD
  let P := ZI.scale 5 1 (ZI.add (ZI.scale 1 2 psi) (ZI.scale 1 2 phi))
  let PF := ZI.div P F
  let LamD := ZI.add (ZI.point 1 1) PF
  let Lam := ZI.div PF LamD
  let gy := ZI.scale 3 10 Lam
  let gb := ZI.add (ZI.point 1 20) (ZI.scale 1 10 Lam)
  let dy := ZI.scale 1 5 Lam
  let db := ZI.add (ZI.point 1 20) (ZI.scale 1 10 Lam)
  let sy := ZI.add (ZI.div (ZI.mul dy Y) F) gy
  let sb := ZI.add (ZI.div (ZI.mul db B) F) gb
  (ZI.sub (ZI.mul sy N) (ZI.scale 1 10 Y),
   ZI.sub (ZI.mul sb N) (ZI.scale 1 10 B),
   ZI.sub (ZI.point 1 1) (ZI.mul N (ZI.add (ZI.add (ZI.point 1 10) sy) sb)))

/-- Validity certificate for `rhsI7`: every divisor interval has a positive
lower bound, so each interval division above is sound. -/
def rhsOK7 (I : ZI × ZI × ZI) : Bool :=
  let Y := I.1
  let B := I.2.1
  let N := I.2.2
  let F := ZI.add (ZI.add Y B) N
  let Fp1 := ZI.add F (ZI.point 1 1)
  let FF := ZI.div F Fp1
  let FFu := ZI.mul FF FF
  let phiD := ZI.add (ZI.point 1 1) FFu
  let phi := ZI.div FFu phiD
  let BF := ZI.div B F
  let psiD := ZI.add (ZI.point 1 1) (ZI.mul BF BF)
  let psi := ZI.div (ZI.point 1 1) psiD
  let P := ZI.scale 5 1 (ZI.add (ZI.scale 1 2 psi) (ZI.scale 1 2 phi))
  let PF := ZI.div P F
  let LamD := ZI.add (ZI.point 1 1) PF
  decide (0 < F.lo) && decide (0 < Fp1.lo) && decide (0 < phiD.lo) &&
    decide (0 < psiD.lo) && decide (0 < LamD.lo)

/-- One interval Runge–Kutta step of size `1/10` for the `p7` field, paired
with the conjunction of the four stages' validity certificates. -/
def rk4I7 (I : ZI × ZI × ZI) : (ZI × ZI × ZI) × Bool :=
  let k1 := rhsI7 I
  let b1 := rhsOK7 I
  let x2 := addZ3 I (scaleZ3 1 20 k1)
  let k2 := rhsI7 x2
  let b2 := rhsOK7 x2
  let x3 := addZ3 I (scaleZ3 1 20 k2)
  let k3 := rhsI7 x3
  let b3 := rhsOK7 x3
  let x4 := addZ3 I (scaleZ3 1 10 k3)
  let k4 := rhsI7 x4
  let b4 := rhsOK7 x4
  (addZ3 I (scaleZ3 1 60 (addZ3 (addZ3 (addZ3 k1 (scaleZ3 2 1 k2)) (scaleZ3 2 1 k3)) k4)),
   b1 && b2 && b3 && b4)

/-- Interval enclosure of the §8 scenario's trajectory after `k` steps, with
the accumulated validity certificate. -/
def trajI7 : ℕ → (ZI × ZI × ZI) × Bool
  | 0 => ((ZI.point 1 1, ZI.point 1 1, ZI.point 1 1), true)
  | n + 1 =>
    let r := trajI7 n
    let s := rk4I7 r.1
    (s.1, r.2 && s.2)

/-- Per-sample certificate: validity of the enclosure plus strict positivity
of all three lower bounds. -/
def stepChk (k : ℕ) : Bool :=
  let r := trajI7 k
  r.2 && decide (0 < r.1.1.lo) && decide (0 < r.1.2.1.lo) && decide (0 < r.1.2.2.lo)

end SweetSour

namespace SweetSour

/-- `C1`: for every state `(Y, B, N)` with `Y + B + N > 0` and every time `t`,
the constant-input single-plant dynamics function writes the derivative
given by the specification's §4.1 algebra: with `F = Y+B+N`,
`FF_u = (F/(F+F_tilde))^u`, `phi = FF_u/(f_0^u + FF_u)`,
`psi = s_0^h/(s_0^h + (B/F)^h)`, `P = P_max*(q*psi + (1-q)*phi)`,
`Lambda = (P/F)/(L_0 + P/F)`, `gamma_y = g_yp*Lambda`,
`gamma_b = g_b0 + g_bp*Lambda`, `delta_y = d_yp*Lambda`,
`delta_b = d_b0 + d_bp*Lambda`, `disp_y = delta_y*Y/F + gamma_y`,
`disp_b = delta_b*B/F + gamma_b`, it returns
`(disp_y*N - m*Y, disp_b*N - m*B, R - N*(m + disp_y + disp_b))`. -/
theorem one_plant_rhs_matches_spec (p : OnePlantParams) (Y B N t : ℝ)
    (hF : 0 < Y + B + N) :
    onePlantRHS p (Y, B, N) t = onePlantRHSspec p Y B N t := rfl

/-- Witness for `one_plant_rhs_matches_spec` at `Y = B = N = 1`, `t = 0`. -/
theorem one_plant_rhs_matches_spec_witness :
    (0:ℝ) < 1 + 1 + 1 ∧ onePlantRHS pC5 (1, 1, 1) 0 = onePlantRHSspec pC5 1 1 1 0 :=
  ⟨by norm_num, one_plant_rhs_matches_spec pC5 1 1 1 0 (by norm_num)⟩

/-- `C2`: for both single-plant variants, for every state with
`F = Y + B + N > 0`, every time and arbitrary parameters, the three derivative
components sum exactly to `R - m*(Y+B+N)`, where `R` is the fixed resource
parameter for the constant-input variant and the Weibull term `seasonR`
evaluated at `t` for the seasonal variant. -/
theorem rhs_sum_identity (p : OnePlantParams) (ps : OnePlantSeasonParams) (Y B N t : ℝ)
    (hF : 0 < Y + B + N) :
    (onePlantRHS p (Y, B, N) t).1 + (onePlantRHS p (Y, B, N) t).2.1 +
        (onePlantRHS p (Y, B, N) t).2.2 = p.R - p.m * (Y + B + N) ∧
    (onePlantSeasonRHS ps (Y, B, N) t).1 + (onePlantSeasonRHS ps (Y, B, N) t).2.1 +
        (onePlantSeasonRHS ps (Y, B, N) t).2.2 = seasonR ps t - ps.m * (Y + B + N) := by
  constructor
  · simp only [onePlantRHS]
    ring
  · simp only [onePlantSeasonRHS]
    ring

/-- Witness for `rhs_sum_identity` at `Y = B = N = 1`, `t = 0`. -/
theorem rhs_sum_identity_witness :
    (0:ℝ) < 1 + 1 + 1 ∧
    (onePlantRHS pC5 (1, 1, 1) 0).1 + (onePlantRHS pC5 (1, 1, 1) 0).2.1 +
        (onePlantRHS pC5 (1, 1, 1) 0).2.2 = pC5.R - pC5.m * (1 + 1 + 1) :=
  ⟨by norm_num, (rhs_sum_identity pC5 psC 1 1 1 0 (by norm_num)).1⟩

/-- `C3`: at every invocation of the landscape dynamics function, the
allocation weights are those computed by `make_weights` from the state matrix
passed to that invocation (the embedding of `operator()` is a pure function of
the current state, so nothing can be reused from a previous step), and for
every plant `i` the weight equals
`(1 - B_i)^u / (X + Σ_j (1 - B_j)^u)`. -/
theorem land_weights_formula {n : ℕ} (p : LandParams n) (x : Fin n → ℝ × ℝ) (t : ℝ)
    (i : Fin n) :
    make_weights p x i = (1 - (x i).2) ^ p.u / (p.X + ∑ j, (1 - (x j).2) ^ p.u) ∧
    landRHS p x t i = one_plant p (make_weights p x) i x t :=
  ⟨rfl, rfl⟩

/-- `C4` fails as stated: on the two-plant landscape `landP2` (`X = 1 > 0`,
`u = 1`) at the state `xB1` with `B_0 = 1` and `B_1 = 0` — every `B_i` in
`[0, 1]` — the first plant's allocation weight is `(1-1)^1/(1+1) = 0`, which
is not strictly positive. -/
theorem land_weights_pos_counterexample :
    0 < landP2.X ∧ (0 ≤ (xB1 0).2 ∧ (xB1 0).2 ≤ 1) ∧ (0 ≤ (xB1 1).2 ∧ (xB1 1).2 ≤ 1) ∧
    ¬ (0 < make_weights landP2 xB1 0) := by
  refine ⟨by norm_num [landP2], by norm_num [xB1], by norm_num [xB1], ?_⟩
  have h0 : make_weights landP2 xB1 0 = 0 := by
    norm_num [make_weights, xB1, landP2, Fin.sum_univ_two, Real.rpow_one]
  rw [h0]
  exact lt_irrefl 0

/-- `C4` (amended): for every landscape state with `X > 0` and every plant's
`B_i` in `[0, 1)` — strictly below 1 instead of the claimed closed interval —
the allocation weights satisfy `Σ_i P_i < 1` and `P_i > 0` for every `i`. -/
theorem land_weights_sum_lt_one_pos {n : ℕ} (p : LandParams n) (x : Fin n → ℝ × ℝ)
    (hX : 0 < p.X) (hB : ∀ i, 0 ≤ (x i).2 ∧ (x i).2 < 1) :
    (∑ i, make_weights p x i) < 1 ∧ ∀ i, 0 < make_weights p x i := by
  simp only [make_weights]
  have hw : ∀ i : Fin n, 0 < (1 - (x i).2) ^ p.u := fun i =>
    Real.rpow_pos_of_pos (by linarith [(hB i).1, (hB i).2]) _
  have hS : 0 ≤ ∑ i, (1 - (x i).2) ^ p.u :=
    Finset.sum_nonneg fun i _ => (hw i).le
  have hden : 0 < p.X + ∑ i, (1 - (x i).2) ^ p.u := by linarith
  constructor
  · have hsum : (∑ i, (1 - (x i).2) ^ p.u / (p.X + ∑ j, (1 - (x j).2) ^ p.u))
        = (∑ i, (1 - (x i).2) ^ p.u) / (p.X + ∑ j, (1 - (x j).2) ^ p.u) := by
      rw [Finset.sum_div]
    rw [hsum, div_lt_one hden]
    linarith
  · intro i
    exact div_pos (hw i) hden

/-- Witness for `land_weights_sum_lt_one_pos` on the two-plant landscape
`landP2` with both visited proportions `1/10`. -/
theorem land_weights_sum_lt_one_pos_witness :
    0 < landP2.X ∧
    (∑ i, make_weights landP2 (fun _ => ((1:ℝ)/2, (1:ℝ)/10)) i) < 1 := by
  refine ⟨by norm_num [landP2], ?_⟩
  exact (land_weights_sum_lt_one_pos landP2 (fun _ => ((1:ℝ)/2, (1:ℝ)/10))
    (by norm_num [landP2]) (fun i => by norm_num)).1

/-- `C5` exhibits a code bug in the constant-input variant: the output
assembly of `one_plant_ode` recomputes `phi` from `F_u = pow(F, u)`
(part_001 line 169, matching the commented-out lines 72–73 of the right-hand
side) while the right-hand side uses `FF_u = pow(F/(F+F_tilde), u)`
(line 74).  At the sample state `(1, 1, 1)` with `u = h = 1`,
`f_0 = s_0 = F_tilde = 1`, `q = 0`, `P_max = 1`, the recomputed "P" column is
`3/4` whereas the RHS pollination rate is `3/7`. -/
theorem output_p_column_diverges :
    onePlantOutputP pC5 (1, 1, 1) = 3 / 4 ∧
    pollinationP pC5.P_max pC5.q pC5.s_0_h pC5.h pC5.f_0_u pC5.F_tilde pC5.u 1 1 1 = 3 / 7 ∧
    (3 / 4 : ℝ) ≠ 3 / 7 := by
  refine ⟨?_, ?_, by norm_num⟩
  · simp only [onePlantOutputP, pC5]
    norm_num [Real.rpow_one]
  · simp only [pollinationP, pC5, OnePlantParams.s_0_h, OnePlantParams.f_0_u]
    norm_num [Real.rpow_one]

/-- `C10`: at every landscape state where plant `i` has `Y_i + B_i = 1`
(implicit `N_i = 0`), the derivative row is `(-m_i*Y_i, -m_i*B_i)`, its
components sum to `-m_i`, and for `m_i ≥ 0` the vector field does not
increase `Y_i + B_i` at this boundary. -/
theorem land_boundary_outflow {n : ℕ} (p : LandParams n) (x : Fin n → ℝ × ℝ) (t : ℝ)
    (i : Fin n) (hb : (x i).1 + (x i).2 = 1) :
    (landRHS p x t i).1 = -(p.m i) * (x i).1 ∧
    (landRHS p x t i).2 = -(p.m i) * (x i).2 ∧
    (landRHS p x t i).1 + (landRHS p x t i).2 = -(p.m i) ∧
    (0 ≤ p.m i → (landRHS p x t i).1 + (landRHS p x t i).2 ≤ 0) := by
  have hN : 1 - (x i).1 - (x i).2 = 0 := by linarith
  have h1 : (landRHS p x t i).1 = -(p.m i) * (x i).1 := by
    simp only [landRHS, one_plant, hN, mul_zero, zero_sub]
    ring
  have h2 : (landRHS p x t i).2 = -(p.m i) * (x i).2 := by
    simp only [landRHS, one_plant, hN, mul_zero, zero_sub]
    ring
  have h3 : (landRHS p x t i).1 + (landRHS p x t i).2 = -(p.m i) := by
    rw [h1, h2]
    linear_combination (-(p.m i)) * hb
  exact ⟨h1, h2, h3, fun hm => by rw [h3]; exact neg_nonpos.mpr hm⟩

theorem len_check_true_iff (e : Bool) (v : List ℝ) (np : ℕ) :
    len_check e v np = true ↔ e = true ∨ v.length ≠ np := by
  simp [len_check]

/-- `C6` fails as stated: running the constant-input entry point with
`dt = 3/10` and `max_t = 1` (both positive, a valid call) records samples at
times `0, 3/10, 3/5, 9/10` only — the trajectory ends strictly before
`max_t`, not "at or just past" it. -/
theorem trajectory_end_counterexample :
    ((one_plant_ode pC5 (3/10) 1 1 1 1).map Prod.fst) = [0, 3/10, 3/5, 9/10] ∧
    (9/10 : ℝ) < 1 := by
  have hn : n_steps ((3:ℝ)/10) 1 = 3 := by
    have h10 : (1:ℝ) / (3/10) = 10/3 := by norm_num
    simp only [n_steps, h10]
    rw [Nat.floor_eq_iff (by norm_num)]
    norm_num
  constructor
  · simp only [one_plant_ode, integrate_const, hn, List.map_map]
    norm_num [List.range_succ]
  · norm_num

/-- `C6` (amended): for every dynamics function, initial state, `dt > 0` and
`max_t > 0`, the recorded trajectory consists of exactly the samples
`(k*dt, state after k steps)` for `k = 0, …, n_steps` (so it has one record
per completed step plus the initial record, starts at time 0, and is evenly
spaced by `dt`); its time stamps are strictly increasing; and the last sample
time `n_steps*dt` satisfies `max_t - dt < n_steps*dt ≤ max_t` — it equals
`max_t` when `dt` divides `max_t` and otherwise falls short of it by less
than `dt`, rather than lying at or past `max_t`. -/
theorem integrate_const_sampling {S : Type*} [AddCommGroup S] [Module ℝ S]
    (f : S → ℝ → S) (x0 : S) (dt max_t : ℝ) (hdt : 0 < dt) (hmt : 0 < max_t) :
    (integrate_const f x0 max_t dt).length = n_steps dt max_t + 1 ∧
    ((integrate_const f x0 max_t dt).map Prod.fst).Pairwise (· < ·) ∧
    (∀ k, k ≤ n_steps dt max_t →
      ((k : ℝ) * dt, trajStates f x0 dt k) ∈ integrate_const f x0 max_t dt) ∧
    (∀ s ∈ integrate_const f x0 max_t dt, ∃ k, k ≤ n_steps dt max_t ∧
      s = ((k : ℝ) * dt, trajStates f x0 dt k)) ∧
    max_t - dt < (n_steps dt max_t : ℝ) * dt ∧ (n_steps dt max_t : ℝ) * dt ≤ max_t := by
  refine ⟨?_, ?_, ?_, ?_, ?_, ?_⟩
  · simp [integrate_const]
  · rw [integrate_const, List.map_map]
    refine List.Pairwise.map _ (fun a b hab => ?_) (List.pairwise_lt_range _)
    exact mul_lt_mul_of_pos_right (by exact_mod_cast hab) hdt
  · intro k hk
    exact List.mem_map.mpr ⟨k, List.mem_range.mpr (Nat.lt_succ_of_le hk), rfl⟩
  · intro s hs
    obtain ⟨k, hk, rfl⟩ := List.mem_map.mp hs
    exact ⟨k, Nat.lt_succ_iff.mp (List.mem_range.mp hk), rfl⟩
  · have h1 : max_t / dt < (n_steps dt max_t : ℝ) + 1 := Nat.lt_floor_add_one _
    have := (div_lt_iff₀ hdt).mp h1
    nlinarith
  · have h2 : (n_steps dt max_t : ℝ) ≤ max_t / dt :=
      Nat.floor_le (div_nonneg hmt.le hdt.le)
    exact (le_div_iff₀ hdt).mp h2

/-- Witness for `integrate_const_sampling`: the identity field on `ℝ` with
`dt = 1/2`, `max_t = 1` records `n_steps + 1` samples. -/
theorem integrate_const_sampling_witness :
    (0:ℝ) < 1/2 ∧ (0:ℝ) < 1 ∧
    (integrate_const (fun (x : ℝ) (_ : ℝ) => x) 0 1 (1/2)).length = n_steps (1/2) 1 + 1 :=
  ⟨by norm_num, by norm_num,
    (integrate_const_sampling (fun (x : ℝ) (_ : ℝ) => x) 0 (1/2) 1 (by norm_num)
      (by norm_num)).1⟩

/-- `C7` fails as stated: the §8 concrete scenario (`dt = 1/10`,
`max_t = 1`) records 11 samples, not 10, and the first recorded time is 0,
not 0.1 — the observer also records the initial state. -/
theorem one_plant_scenario_counterexample :
    (one_plant_ode p7 (1/10) 1 1 1 1).length = 11 ∧ (11 : ℕ) ≠ 10 ∧
    ((one_plant_ode p7 (1/10) 1 1 1 1).map Prod.fst).head? = some 0 := by
  have hn : n_steps ((10:ℝ)⁻¹) 1 = 10 := by
    have h10 : (1:ℝ) / (10:ℝ)⁻¹ = 10 := by norm_num
    simp only [n_steps, h10]
    rw [Nat.floor_eq_iff (by norm_num)]
    norm_num
  refine ⟨?_, by norm_num, ?_⟩
  · simp [one_plant_ode, integrate_const, one_div, hn]
  · simp only [one_plant_ode, integrate_const, one_div, hn, List.map_map]
    norm_num [List.range_succ]

/-- `C8`: whenever any of the nine per-plant vectors has a length different
from `m`'s, the landscape entry point returns the empty `0 × 0` matrix
sentinel (the integration branch of the definition is never taken). -/
theorem landscape_len_mismatch_sentinel (m d_yp d_b0 d_bp g_yp g_b0 g_bp L_0 : List ℝ)
    (u X : ℝ) (Y0 B0 : List ℝ) (dt max_t : ℝ)
    (hlen : d_yp.length ≠ m.length ∨ d_b0.length ≠ m.length ∨ d_bp.length ≠ m.length ∨
      g_yp.length ≠ m.length ∨ g_b0.length ≠ m.length ∨ g_bp.length ≠ m.length ∨
      L_0.length ≠ m.length ∨ Y0.length ≠ m.length ∨ B0.length ≠ m.length) :
    landscape_constantF_ode m d_yp d_b0 d_bp g_yp g_b0 g_bp L_0 u X Y0 B0 dt max_t =
      ⟨0, 0, fun _ _ => 0⟩ := by
  simp only [landscape_constantF_ode]
  split
  · rfl
  · rename_i herr
    simp only [len_check_true_iff, Bool.false_eq_true, false_or] at herr
    tauto

/-- Witness for `landscape_len_mismatch_sentinel`: an empty `d_yp` against a
one-plant `m` yields the `0 × 0` sentinel. -/
theorem landscape_len_mismatch_sentinel_witness :
    ([] : List ℝ).length ≠ ([0] : List ℝ).length ∧
    (landscape_constantF_ode [0] [] [0] [0] [0] [0] [0] [0] 1 1 [0] [0] 1 1).nrow = 0 := by
  refine ⟨by decide, ?_⟩
  rw [landscape_len_mismatch_sentinel [0] [] [0] [0] [0] [0] [0] [0] 1 1 [0] [0] 1 1
    (Or.inl (by decide))]

theorem make_weights_symm {n : ℕ} (p : LandParams n) (x : Fin n → ℝ × ℝ) (i j : Fin n)
    (hx : (x i).2 = (x j).2) : make_weights p x i = make_weights p x j := by
  simp only [make_weights, hx]

theorem landRHS_symm {n : ℕ} (p : LandParams n) (i j : Fin n) (hp : SamePlantParams p i j)
    (x : Fin n → ℝ × ℝ) (t : ℝ) (hx : x i = x j) : landRHS p x t i = landRHS p x t j := by
  obtain ⟨h1, h2, h3, h4, h5, h6, h7, h8⟩ := hp
  simp only [landRHS, one_plant, h1, h2, h3, h4, h5, h6, h7, h8, hx,
    make_weights_symm p x i j (by rw [hx])]

theorem rk4Step_symm {n : ℕ} (p : LandParams n) (i j : Fin n) (hp : SamePlantParams p i j)
    (x : Fin n → ℝ × ℝ) (t dt : ℝ) (hx : x i = x j) :
    rk4Step (landRHS p) x t dt i = rk4Step (landRHS p) x t dt j := by
  have h1 := landRHS_symm p i j hp x t hx
  have e1 : (x + (dt / 2) • landRHS p x t) i = (x + (dt / 2) • landRHS p x t) j := by
    simp only [Pi.add_apply, Pi.smul_apply, hx, h1]
  have h2 := landRHS_symm p i j hp _ (t + dt / 2) e1
  have e2 : (x + (dt / 2) • landRHS p (x + (dt / 2) • landRHS p x t) (t + dt / 2)) i =
      (x + (dt / 2) • landRHS p (x + (dt / 2) • landRHS p x t) (t + dt / 2)) j := by
    simp only [Pi.add_apply, Pi.smul_apply, hx, h2]
  have h3 := landRHS_symm p i j hp _ (t + dt / 2) e2
  have e3 : (x + dt • landRHS p
        (x + (dt / 2) • landRHS p (x + (dt / 2) • landRHS p x t) (t + dt / 2))
        (t + dt / 2)) i =
      (x + dt • landRHS p
        (x + (dt / 2) • landRHS p (x + (dt / 2) • landRHS p x t) (t + dt / 2))
        (t + dt / 2)) j := by
    simp only [Pi.add_apply, Pi.smul_apply, hx, h3]
  have h4 := landRHS_symm p i j hp _ (t + dt) e3
  simp only [rk4Step, Pi.add_apply, Pi.smul_apply, hx, h1, h2, h3, h4]

theorem trajStates_symm {n : ℕ} (p : LandParams n) (i j : Fin n)
    (hp : SamePlantParams p i j) (x0 : Fin n → ℝ × ℝ) (dt : ℝ) (h0 : x0 i = x0 j) :
    ∀ k : ℕ, trajStates (landRHS p) x0 dt k i = trajStates (landRHS p) x0 dt k j := by
  intro k
  induction k with
  | zero => exact h0
  | succ k ih => exact rk4Step_symm p i j hp _ _ _ ih

/-- `C9`: if plants `i` and `j` of a landscape share their per-plant
parameters and their initial `(Y, B)` rows, then after every integration step
their rows remain equal, and at every recorded sample their rows and their
allocation weights are equal — equality of two plants is an invariant of the
integration. -/
theorem land_symmetry {n : ℕ} (p : LandParams n) (i j : Fin n)
    (hp : SamePlantParams p i j) (x0 : Fin n → ℝ × ℝ) (h0 : x0 i = x0 j)
    (dt max_t : ℝ) :
    (∀ k : ℕ, trajStates (landRHS p) x0 dt k i = trajStates (landRHS p) x0 dt k j) ∧
    (∀ s ∈ integrate_const (landRHS p) x0 max_t dt,
      s.2 i = s.2 j ∧ make_weights p s.2 i = make_weights p s.2 j) := by
  refine ⟨trajStates_symm p i j hp x0 dt h0, fun s hs => ?_⟩
  obtain ⟨k, _, rfl⟩ := List.mem_map.mp hs
  have hk := trajStates_symm p i j hp x0 dt h0 k
  refine ⟨hk, make_weights_symm p _ i j ?_⟩
  show (trajStates (landRHS p) x0 dt k i).2 = (trajStates (landRHS p) x0 dt k j).2
  rw [hk]

theorem zval_add (a b : ℤ) : zval (a + b) = zval a + zval b := by
  unfold zval
  push_cast
  ring

theorem zval_neg (a : ℤ) : zval (-a) = -zval a := by
  unfold zval
  push_cast
  ring

theorem fdivZ_le {a b : ℤ} (hb : 0 < b) : (fdivZ a b : ℝ) ≤ (a : ℝ) / (b : ℝ) := by
  have h1 : b * Int.fdiv a b ≤ a := by
    have h2 := Int.fmod_add_fdiv a b
    have h3 := Int.fmod_nonneg' a hb
    linarith
  have hb' : (0:ℝ) < (b : ℝ) := by exact_mod_cast hb
  rw [le_div_iff₀ hb']
  have h4 : ((b * Int.fdiv a b : ℤ) : ℝ) ≤ ((a : ℤ) : ℝ) := by exact_mod_cast h1
  push_cast at h4
  unfold fdivZ
  linarith

theorem le_cdivZ {a b : ℤ} (hb : 0 < b) : (a : ℝ) / (b : ℝ) ≤ (cdivZ a b : ℝ) := by
  have h := fdivZ_le (a := -a) hb
  unfold fdivZ at h
  unfold cdivZ
  push_cast at h ⊢
  rw [neg_div] at h
  linarith

theorem memZ_point {num denom : ℤ} (hd : 0 < denom) :
    ZI.mem ((num : ℝ) / (denom : ℝ)) (ZI.point num denom) := by
  have h2 : (0:ℝ) < 2 ^ 64 := by positivity
  constructor
  · show zval (fdivZ (num * den64) denom) ≤ _
    have h1 := fdivZ_le (a := num * den64) hd
    unfold zval
    rw [div_le_iff₀ h2]
    calc (fdivZ (num * den64) denom : ℝ) ≤ ((num * den64 : ℤ) : ℝ) / (denom : ℝ) := h1
      _ = (num : ℝ) / (denom : ℝ) * 2 ^ 64 := by push_cast [den64]; ring
  · show _ ≤ zval (cdivZ (num * den64) denom)
    have h1 := le_cdivZ (a := num * den64) hd
    unfold zval
    rw [le_div_iff₀ h2]
    calc (num : ℝ) / (denom : ℝ) * 2 ^ 64 = ((num * den64 : ℤ) : ℝ) / (denom : ℝ) := by
          push_cast [den64]; ring
      _ ≤ (cdivZ (num * den64) denom : ℝ) := h1

theorem memZ_point_num (c : ℝ) (num denom : ℤ) (hc : c = (num : ℝ) / (denom : ℝ))
    (hd : 0 < denom) : ZI.mem c (ZI.point num denom) := by
  subst hc
  exact memZ_point hd

theorem memZ_add {x y : ℝ} {I J : ZI} (hx : ZI.mem x I) (hy : ZI.mem y J) :
    ZI.mem (x + y) (ZI.add I J) := by
  obtain ⟨h1, h2⟩ := hx
  obtain ⟨h3, h4⟩ := hy
  constructor
  · show zval (I.lo + J.lo) ≤ x + y
    rw [zval_add]
    exact add_le_add h1 h3
  · show x + y ≤ zval (I.hi + J.hi)
    rw [zval_add]
    exact add_le_add h2 h4

theorem memZ_neg {x : ℝ} {I : ZI} (hx : ZI.mem x I) : ZI.mem (-x) (ZI.neg I) := by
  obtain ⟨h1, h2⟩ := hx
  constructor
  · show zval (-I.hi) ≤ -x
    rw [zval_neg]
    linarith
  · show -x ≤ zval (-I.lo)
    rw [zval_neg]
    linarith

theorem memZ_sub {x y : ℝ} {I J : ZI} (hx : ZI.mem x I) (hy : ZI.mem y J) :
    ZI.mem (x - y) (ZI.sub I J) := by
  have h := memZ_add hx (memZ_neg hy)
  rw [sub_eq_add_neg]
  exact h

theorem castZ_min (a b : ℤ) : ((min a b : ℤ) : ℝ) = min (a : ℝ) (b : ℝ) := by
  rcases le_total a b with h | h
  · rw [min_eq_left h, min_eq_left (by exact_mod_cast h : (a:ℝ) ≤ (b:ℝ))]
  · rw [min_eq_right h, min_eq_right (by exact_mod_cast h : (b:ℝ) ≤ (a:ℝ))]

theorem castZ_max (a b : ℤ) : ((max a b : ℤ) : ℝ) = max (a : ℝ) (b : ℝ) := by
  rcases le_total a b with h | h
  · rw [max_eq_right h, max_eq_right (by exact_mod_cast h : (a:ℝ) ≤ (b:ℝ))]
  · rw [max_eq_left h, max_eq_left (by exact_mod_cast h : (b:ℝ) ≤ (a:ℝ))]

theorem min_mul_right_nonneg (a b c : ℝ) (hc : 0 ≤ c) : min (a * c) (b * c) = min a b * c := by
  rcases le_total a b with h | h
  · rw [min_eq_left h, min_eq_left (mul_le_mul_of_nonneg_right h hc)]
  · rw [min_eq_right h, min_eq_right (mul_le_mul_of_nonneg_right h hc)]

theorem max_mul_right_nonneg (a b c : ℝ) (hc : 0 ≤ c) : max (a * c) (b * c) = max a b * c := by
  rcases le_total a b with h | h
  · rw [max_eq_right h, max_eq_right (mul_le_mul_of_nonneg_right h hc)]
  · rw [max_eq_left h, max_eq_left (mul_le_mul_of_nonneg_right h hc)]

theorem mul_between_left {x y a1 a2 : ℝ} (h1 : a1 ≤ x) (h2 : x ≤ a2) :
    min (a1 * y) (a2 * y) ≤ x * y ∧ x * y ≤ max (a1 * y) (a2 * y) := by
  rcases le_total 0 y with hy | hy
  · exact ⟨le_trans (min_le_left _ _) (mul_le_mul_of_nonneg_right h1 hy),
      le_trans (mul_le_mul_of_nonneg_right h2 hy) (le_max_right _ _)⟩
  · exact ⟨le_trans (min_le_right _ _) (mul_le_mul_of_nonpos_right h2 hy),
      le_trans (mul_le_mul_of_nonpos_right h1 hy) (le_max_left _ _)⟩

theorem mul_between_right {x b1 b2 y : ℝ} (h1 : b1 ≤ y) (h2 : y ≤ b2) :
    min (x * b1) (x * b2) ≤ x * y ∧ x * y ≤ max (x * b1) (x * b2) := by
  rcases le_total 0 x with hx | hx
  · exact ⟨le_trans (min_le_left _ _) (mul_le_mul_of_nonneg_left h1 hx),
      le_trans (mul_le_mul_of_nonneg_left h2 hx) (le_max_right _ _)⟩
  · exact ⟨le_trans (min_le_right _ _) (mul_le_mul_of_nonpos_left h2 hx),
      le_trans (mul_le_mul_of_nonpos_left h1 hx) (le_max_left _ _)⟩

theorem mul_corners {x y a1 a2 b1 b2 : ℝ} (hx1 : a1 ≤ x) (hx2 : x ≤ a2)
    (hy1 : b1 ≤ y) (hy2 : y ≤ b2) :
    min (min (a1 * b1) (a1 * b2)) (min (a2 * b1) (a2 * b2)) ≤ x * y ∧
    x * y ≤ max (max (a1 * b1) (a1 * b2)) (max (a2 * b1) (a2 * b2)) := by
  obtain ⟨hl, hr⟩ := mul_between_left (y := y) hx1 hx2
  obtain ⟨hb1l, hb1r⟩ := mul_between_right (x := a1) hy1 hy2
  obtain ⟨hb2l, hb2r⟩ := mul_between_right (x := a2) hy1 hy2
  constructor
  · exact le_trans (le_min (le_trans (min_le_left _ _) hb1l)
      (le_trans (min_le_right _ _) hb2l)) hl
  · exact le_trans hr (max_le (le_trans hb1r (le_max_left _ _))
      (le_trans hb2r (le_max_right _ _)))

theorem memZ_mul {x y : ℝ} {I J : ZI} (hx : ZI.mem x I) (hy : ZI.mem y J) :
    ZI.mem (x * y) (ZI.mul I J) := by
  obtain ⟨hx1, hx2⟩ := hx
  obtain ⟨hy1, hy2⟩ := hy
  obtain ⟨hcl, hcu⟩ := mul_corners hx1 hx2 hy1 hy2
  have hden : (0:ℤ) < den64 := by norm_num [den64]
  have h2 : (0:ℝ) < 2 ^ 64 := by positivity
  have hE : (0:ℝ) < 2 ^ 64 * 2 ^ 64 := by positivity
  have hcast : ((den64 : ℤ) : ℝ) = 2 ^ 64 := by norm_num [den64]
  have c11 : zval I.lo * zval J.lo * (2 ^ 64 * 2 ^ 64) = (I.lo : ℝ) * (J.lo : ℝ) := by
    unfold zval
    field_simp
  have c12 : zval I.lo * zval J.hi * (2 ^ 64 * 2 ^ 64) = (I.lo : ℝ) * (J.hi : ℝ) := by
    unfold zval
    field_simp
  have c21 : zval I.hi * zval J.lo * (2 ^ 64 * 2 ^ 64) = (I.hi : ℝ) * (J.lo : ℝ) := by
    unfold zval
    field_simp
  have c22 : zval I.hi * zval J.hi * (2 ^ 64 * 2 ^ 64) = (I.hi : ℝ) * (J.hi : ℝ) := by
    unfold zval
    field_simp
  constructor
  · show zval (fdivZ (min (min (I.lo * J.lo) (I.lo * J.hi))
      (min (I.hi * J.lo) (I.hi * J.hi))) den64) ≤ x * y
    have h1 := fdivZ_le (a := min (min (I.lo * J.lo) (I.lo * J.hi))
      (min (I.hi * J.lo) (I.hi * J.hi))) hden
    rw [hcast] at h1
    unfold zval
    rw [div_le_iff₀ h2]
    refine le_trans h1 ?_
    rw [div_le_iff₀ h2]
    have hmin : ((min (min (I.lo * J.lo) (I.lo * J.hi))
        (min (I.hi * J.lo) (I.hi * J.hi)) : ℤ) : ℝ)
        = min (min (zval I.lo * zval J.lo) (zval I.lo * zval J.hi))
            (min (zval I.hi * zval J.lo) (zval I.hi * zval J.hi)) * (2 ^ 64 * 2 ^ 64) := by
      rw [castZ_min, castZ_min, castZ_min]
      push_cast
      rw [← c11, ← c12, ← c21, ← c22, min_mul_right_nonneg _ _ _ hE.le,
        min_mul_right_nonneg _ _ _ hE.le, min_mul_right_nonneg _ _ _ hE.le]
    rw [hmin]
    calc min (min (zval I.lo * zval J.lo) (zval I.lo * zval J.hi))
          (min (zval I.hi * zval J.lo) (zval I.hi * zval J.hi)) * (2 ^ 64 * 2 ^ 64)
        ≤ x * y * (2 ^ 64 * 2 ^ 64) := mul_le_mul_of_nonneg_right hcl hE.le
      _ = x * y * 2 ^ 64 * 2 ^ 64 := by ring
  · show x * y ≤ zval (cdivZ (max (max (I.lo * J.lo) (I.lo * J.hi))
      (max (I.hi * J.lo) (I.hi * J.hi))) den64)
    have h1 := le_cdivZ (a := max (max (I.lo * J.lo) (I.lo * J.hi))
      (max (I.hi * J.lo) (I.hi * J.hi))) hden
    rw [hcast] at h1
    unfold zval
    rw [le_div_iff₀ h2]
    refine le_trans ?_ h1
    rw [le_div_iff₀ h2]
    have hmax : ((max (max (I.lo * J.lo) (I.lo * J.hi))
        (max (I.hi * J.lo) (I.hi * J.hi)) : ℤ) : ℝ)
        = max (max (zval I.lo * zval J.lo) (zval I.lo * zval J.hi))
            (max (zval I.hi * zval J.lo) (zval I.hi * zval J.hi)) * (2 ^ 64 * 2 ^ 64) := by
      rw [castZ_max, castZ_max, castZ_max]
      push_cast
      rw [← c11, ← c12, ← c21, ← c22, max_mul_right_nonneg _ _ _ hE.le,
        max_mul_right_nonneg _ _ _ hE.le, max_mul_right_nonneg _ _ _ hE.le]
    rw [hmax]
    calc x * y * 2 ^ 64 * 2 ^ 64 = x * y * (2 ^ 64 * 2 ^ 64) := by ring
      _ ≤ max (max (zval I.lo * zval J.lo) (zval I.lo * zval J.hi))
          (max (zval I.hi * zval J.lo) (zval I.hi * zval J.hi)) * (2 ^ 64 * 2 ^ 64) :=
        mul_le_mul_of_nonneg_right hcu hE.le

theorem memZ_inv {y : ℝ} {J : ZI} (hJ : 0 < J.lo) (hy : ZI.mem y J) :
    ZI.mem (1 / y) (ZI.inv J) := by
  obtain ⟨h1, h2⟩ := hy
  have h2' : (0:ℝ) < 2 ^ 64 := by positivity
  have hloR : (0:ℝ) < (J.lo : ℝ) := by exact_mod_cast hJ
  have hz1 : (J.lo : ℝ) / 2 ^ 64 ≤ y := h1
  have hz2 : y ≤ (J.hi : ℝ) / 2 ^ 64 := h2
  have hy0 : 0 < y := lt_of_lt_of_le (div_pos hloR h2') hz1
  have hhiR : (0:ℝ) < (J.hi : ℝ) := by nlinarith
  have hhiZ : 0 < J.hi := by exact_mod_cast hhiR
  have hdd : ((den64 * den64 : ℤ) : ℝ) = 2 ^ 64 * 2 ^ 64 := by push_cast [den64]; ring
  constructor
  · show zval (fdivZ (den64 * den64) J.hi) ≤ 1 / y
    have k1 := fdivZ_le (a := den64 * den64) hhiZ
    rw [hdd] at k1
    unfold zval
    rw [div_le_iff₀ h2']
    refine le_trans k1 ?_
    rw [div_le_iff₀ hhiR, one_div]
    have key : y * 2 ^ 64 ≤ (J.hi : ℝ) := (le_div_iff₀ h2').mp hz2
    have hnn : (0:ℝ) ≤ y⁻¹ * 2 ^ 64 := mul_nonneg (inv_nonneg.mpr hy0.le) h2'.le
    have K := mul_le_mul_of_nonneg_left key hnn
    have L : y⁻¹ * 2 ^ 64 * (y * 2 ^ 64) = y⁻¹ * y * (2 ^ 64 * 2 ^ 64) := by ring
    rw [L, inv_mul_cancel₀ (ne_of_gt hy0), one_mul] at K
    linarith
  · show 1 / y ≤ zval (cdivZ (den64 * den64) J.lo)
    have k1 := le_cdivZ (a := den64 * den64) hJ
    rw [hdd] at k1
    unfold zval
    rw [le_div_iff₀ h2']
    refine le_trans ?_ k1
    rw [le_div_iff₀ hloR, one_div]
    have key : (J.lo : ℝ) ≤ y * 2 ^ 64 := (div_le_iff₀ h2').mp hz1
    have hnn : (0:ℝ) ≤ y⁻¹ * 2 ^ 64 := mul_nonneg (inv_nonneg.mpr hy0.le) h2'.le
    have K := mul_le_mul_of_nonneg_left key hnn
    have L : y⁻¹ * 2 ^ 64 * (y * 2 ^ 64) = y⁻¹ * y * (2 ^ 64 * 2 ^ 64) := by ring
    rw [L, inv_mul_cancel₀ (ne_of_gt hy0), one_mul] at K
    linarith

theorem memZ_div {x y : ℝ} {I J : ZI} (hJ : 0 < J.lo) (hx : ZI.mem x I)
    (hy : ZI.mem y J) : ZI.mem (x / y) (ZI.div I J) := by
  have h := memZ_mul hx (memZ_inv hJ hy)
  rw [show x / y = x * (1 / y) from by ring]
  exact h

theorem memZ_scale {x : ℝ} {I : ZI} {num denom : ℤ} (hn : 0 ≤ num) (hd : 0 < denom)
    (hx : ZI.mem x I) : ZI.mem ((num : ℝ) / (denom : ℝ) * x) (ZI.scale num denom I) := by
  obtain ⟨h1, h2⟩ := hx
  have h2' : (0:ℝ) < 2 ^ 64 := by positivity
  have hdR : (0:ℝ) < (denom : ℝ) := by exact_mod_cast hd
  have hcR : 0 ≤ (num : ℝ) / (denom : ℝ) := div_nonneg (by exact_mod_cast hn) hdR.le
  constructor
  · show zval (fdivZ (num * I.lo) denom) ≤ _
    have k1 := fdivZ_le (a := num * I.lo) hd
    unfold zval
    rw [div_le_iff₀ h2']
    refine le_trans k1 ?_
    have e1 : ((num * I.lo : ℤ) : ℝ) / (denom : ℝ) = (num : ℝ) / (denom : ℝ) * (I.lo : ℝ) := by
      push_cast
      ring
    rw [e1]
    have hxl : (I.lo : ℝ) ≤ x * 2 ^ 64 := (div_le_iff₀ h2').mp h1
    calc (num : ℝ) / (denom : ℝ) * (I.lo : ℝ)
        ≤ (num : ℝ) / (denom : ℝ) * (x * 2 ^ 64) := mul_le_mul_of_nonneg_left hxl hcR
      _ = (num : ℝ) / (denom : ℝ) * x * 2 ^ 64 := by ring
  · show _ ≤ zval (cdivZ (num * I.hi) denom)
    have k1 := le_cdivZ (a := num * I.hi) hd
    unfold zval
    rw [le_div_iff₀ h2']
    refine le_trans ?_ k1
    have e1 : ((num * I.hi : ℤ) : ℝ) / (denom : ℝ) = (num : ℝ) / (denom : ℝ) * (I.hi : ℝ) := by
      push_cast
      ring
    rw [e1]
    have hxh : x * 2 ^ 64 ≤ (I.hi : ℝ) := (le_div_iff₀ h2').mp h2
    calc (num : ℝ) / (denom : ℝ) * x * 2 ^ 64
        = (num : ℝ) / (denom : ℝ) * (x * 2 ^ 64) := by ring
      _ ≤ (num : ℝ) / (denom : ℝ) * (I.hi : ℝ) := mul_le_mul_of_nonneg_left hxh hcR

theorem memZ_scale_num {x : ℝ} {I : ZI} (c : ℝ) (num denom : ℤ)
    (hc : c = (num : ℝ) / (denom : ℝ)) (hn : 0 ≤ num) (hd : 0 < denom)
    (hx : ZI.mem x I) : ZI.mem (c * x) (ZI.scale num denom I) := by
  subst hc
  exact memZ_scale hn hd hx

theorem memZ_pos {x : ℝ} {I : ZI} (h : ZI.mem x I) (hlo : 0 < I.lo) : 0 < x :=
  lt_of_lt_of_le (div_pos (by exact_mod_cast hlo) (by positivity)) h.1

theorem memZ3_add {v w : ℝ × ℝ × ℝ} {I J : ZI × ZI × ZI} (hv : memZ3 v I)
    (hw : memZ3 w J) : memZ3 (v + w) (addZ3 I J) :=
  ⟨memZ_add hv.1 hw.1, memZ_add hv.2.1 hw.2.1, memZ_add hv.2.2 hw.2.2⟩

theorem memZ3_smul_num {v : ℝ × ℝ × ℝ} {I : ZI × ZI × ZI} (c : ℝ) (num denom : ℤ)
    (hc : c = (num : ℝ) / (denom : ℝ)) (hn : 0 ≤ num) (hd : 0 < denom)
    (hv : memZ3 v I) : memZ3 (c • v) (scaleZ3 num denom I) := by
  subst hc
  exact ⟨memZ_scale hn hd hv.1, memZ_scale hn hd hv.2.1, memZ_scale hn hd hv.2.2⟩

theorem rhs7_eq (v : ℝ × ℝ × ℝ) (t : ℝ) :
    onePlantRHS p7 v t =
      (let Y := v.1
       let B := v.2.1
       let N := v.2.2
       let F := Y + B + N
       let FF := F / (F + 1)
       let FFu := FF * FF
       let phi := FFu / (1 + FFu)
       let BF := B / F
       let psi := 1 / (1 + BF * BF)
       let P := 5 * (1 / 2 * psi + 1 / 2 * phi)
       let PF := P / F
       let Lam := PF / (1 + PF)
       let gy := 3 / 10 * Lam
       let gb := 1 / 20 + 1 / 10 * Lam
       let dy := 1 / 5 * Lam
       let db := 1 / 20 + 1 / 10 * Lam
       let sy := dy * Y / F + gy
       let sb := db * B / F + gb
       (sy * N - 1 / 10 * Y, sb * N - 1 / 10 * B, 1 - N * (1 / 10 + sy + sb))) := by
  have hpow : ∀ z : ℝ, z ^ (2 : ℝ) = z * z := fun z => by
    rw [Real.rpow_two, pow_two]
  simp only [onePlantRHS, pollinationP, OnePlantParams.s_0_h, OnePlantParams.f_0_u, p7, hpow]
  norm_num

theorem rhsI7_sound (v : ℝ × ℝ × ℝ) (t : ℝ) (I : ZI × ZI × ZI)
    (hv : memZ3 v I) (hOK : rhsOK7 I = true) : memZ3 (onePlantRHS p7 v t) (rhsI7 I) := by
  obtain ⟨hY, hB, hN⟩ := hv
  simp only [rhsOK7, Bool.and_eq_true, decide_eq_true_eq] at hOK
  obtain ⟨⟨⟨⟨hF, hFp1⟩, hphiD⟩, hpsiD⟩, hLamD⟩ := hOK
  rw [rhs7_eq]
  have m1 : ZI.mem (1:ℝ) (ZI.point 1 1) :=
    memZ_point_num 1 1 1 (by push_cast; norm_num) (by norm_num)
  have mF := memZ_add (memZ_add hY hB) hN
  have mFp1 := memZ_add mF m1
  have mFF := memZ_div hFp1 mF mFp1
  have mFFu := memZ_mul mFF mFF
  have mphiD := memZ_add m1 mFFu
  have mphi := memZ_div hphiD mFFu mphiD
  have mBF := memZ_div hF hB mF
  have mpsiD := memZ_add m1 (memZ_mul mBF mBF)
  have mpsi := memZ_div hpsiD m1 mpsiD
  have mP := memZ_scale_num 5 5 1 (by push_cast; norm_num) (by norm_num) (by norm_num)
    (memZ_add
      (memZ_scale_num (1/2) 1 2 (by push_cast; norm_num) (by norm_num) (by norm_num) mpsi)
      (memZ_scale_num (1/2) 1 2 (by push_cast; norm_num) (by norm_num) (by norm_num) mphi))
  have mPF := memZ_div hF mP mF
  have mLamD := memZ_add m1 mPF
  have mLam := memZ_div hLamD mPF mLamD
  have mgy := memZ_scale_num (3/10) 3 10 (by push_cast; norm_num) (by norm_num)
    (by norm_num) mLam
  have mc20 : ZI.mem ((1:ℝ)/20) (ZI.point 1 20) :=
    memZ_point_num (1/20) 1 20 (by push_cast; norm_num) (by norm_num)
  have mgb := memZ_add mc20
    (memZ_scale_num (1/10) 1 10 (by push_cast; norm_num) (by norm_num) (by norm_num) mLam)
  have mdy := memZ_scale_num (1/5) 1 5 (by push_cast; norm_num) (by norm_num)
    (by norm_num) mLam
  have mdb := memZ_add mc20
    (memZ_scale_num (1/10) 1 10 (by push_cast; norm_num) (by norm_num) (by norm_num) mLam)
  have msy := memZ_add (memZ_div hF (memZ_mul mdy hY) mF) mgy
  have msb := memZ_add (memZ_div hF (memZ_mul mdb hB) mF) mgb
  have mc10 : ZI.mem ((1:ℝ)/10) (ZI.point 1 10) :=
    memZ_point_num (1/10) 1 10 (by push_cast; norm_num) (by norm_num)
  exact ⟨memZ_sub (memZ_mul msy hN)
      (memZ_scale_num (1/10) 1 10 (by push_cast; norm_num) (by norm_num) (by norm_num) hY),
    memZ_sub (memZ_mul msb hN)
      (memZ_scale_num (1/10) 1 10 (by push_cast; norm_num) (by norm_num) (by norm_num) hB),
    memZ_sub m1 (memZ_mul hN (memZ_add (memZ_add mc10 msy) msb))⟩

theorem rk4Step_eq3 (f : ℝ × ℝ × ℝ → ℝ → ℝ × ℝ × ℝ) (x : ℝ × ℝ × ℝ) (t dt : ℝ) :
    rk4Step f x t dt =
      x + (dt / 6) • (f x t + (2:ℝ) • f (x + (dt / 2) • f x t) (t + dt / 2)
        + (2:ℝ) • f (x + (dt / 2) • f (x + (dt / 2) • f x t) (t + dt / 2)) (t + dt / 2)
        + f (x + dt • f (x + (dt / 2) • f (x + (dt / 2) • f x t) (t + dt / 2)) (t + dt / 2))
            (t + dt)) := rfl

set_option maxHeartbeats 1000000 in
theorem rk4I7_sound (v : ℝ × ℝ × ℝ) (t : ℝ) (I : ZI × ZI × ZI)
    (hv : memZ3 v I) (hOK : (rk4I7 I).2 = true) :
    memZ3 (rk4Step (onePlantRHS p7) v t (1/10)) (rk4I7 I).1 := by
  have hOK' : rhsOK7 I = true ∧
      rhsOK7 (addZ3 I (scaleZ3 1 20 (rhsI7 I))) = true ∧
      rhsOK7 (addZ3 I (scaleZ3 1 20 (rhsI7 (addZ3 I (scaleZ3 1 20 (rhsI7 I)))))) = true ∧
      rhsOK7 (addZ3 I (scaleZ3 1 10 (rhsI7 (addZ3 I
        (scaleZ3 1 20 (rhsI7 (addZ3 I (scaleZ3 1 20 (rhsI7 I))))))))) = true := by
    have h := hOK
    simp only [rk4I7, Bool.and_eq_true] at h
    exact ⟨h.1.1.1, h.1.1.2, h.1.2, h.2⟩
  obtain ⟨hb1, hb2, hb3, hb4⟩ := hOK'
  rw [rk4Step_eq3]
  have hk1 := rhsI7_sound v t I hv hb1
  have hx2 := memZ3_add hv (memZ3_smul_num ((1:ℝ)/10/2) 1 20 (by push_cast; norm_num)
    (by norm_num) (by norm_num) hk1)
  have hk2 := rhsI7_sound _ (t + 1/10/2) _ hx2 hb2
  have hx3 := memZ3_add hv (memZ3_smul_num ((1:ℝ)/10/2) 1 20 (by push_cast; norm_num)
    (by norm_num) (by norm_num) hk2)
  have hk3 := rhsI7_sound _ (t + 1/10/2) _ hx3 hb3
  have hx4 := memZ3_add hv (memZ3_smul_num ((1:ℝ)/10) 1 10 (by push_cast; norm_num)
    (by norm_num) (by norm_num) hk3)
  have hk4 := rhsI7_sound _ (t + 1/10) _ hx4 hb4
  have hsum := memZ3_add (memZ3_add (memZ3_add hk1
      (memZ3_smul_num (2:ℝ) 2 1 (by push_cast; norm_num) (by norm_num) (by norm_num) hk2))
      (memZ3_smul_num (2:ℝ) 2 1 (by push_cast; norm_num) (by norm_num) (by norm_num) hk3))
    hk4
  exact memZ3_add hv (memZ3_smul_num ((1:ℝ)/10/6) 1 60 (by push_cast; norm_num)
    (by norm_num) (by norm_num) hsum)

theorem trajI7_sound : ∀ k : ℕ, (trajI7 k).2 = true →
    memZ3 (trajStates (onePlantRHS p7) (1, 1, 1) (1/10) k) (trajI7 k).1 := by
  intro k
  induction k with
  | zero =>
    intro _
    have m1 : ZI.mem (1:ℝ) (ZI.point 1 1) :=
      memZ_point_num 1 1 1 (by push_cast; norm_num) (by norm_num)
    exact ⟨m1, m1, m1⟩
  | succ k ih =>
    intro hOK
    have hsplit : (trajI7 k).2 = true ∧ (rk4I7 (trajI7 k).1).2 = true := by
      have h := hOK
      simp only [trajI7, Bool.and_eq_true] at h
      exact h
    exact rk4I7_sound _ ((k : ℝ) * (1/10)) _ (ih hsplit.1) hsplit.2

set_option maxRecDepth 100000 in
theorem stepChk_all : ((List.range 11).all stepChk) = true := by decide

theorem stepChk_split {k : ℕ} (h : stepChk k = true) :
    (trajI7 k).2 = true ∧ 0 < (trajI7 k).1.1.lo ∧ 0 < (trajI7 k).1.2.1.lo ∧
      0 < (trajI7 k).1.2.2.lo := by
  simp only [stepChk, Bool.and_eq_true, decide_eq_true_eq] at h
  exact ⟨h.1.1.1, h.1.1.2, h.1.2, h.2⟩

/-- `C7` (amended): the §8 concrete single-plant scenario (`dt = 1/10`,
`max_t = 1`, `Y0 = B0 = N0 = 1`, parameters `p7`) records exactly 11 samples,
at times `0, 1/10, …, 1`, and all three state values are strictly positive
(and, in the real-number model, automatically finite) at every recorded
sample. -/
theorem one_plant_scenario_amended :
    (one_plant_ode p7 (1/10) 1 1 1 1).length = 11 ∧
    ((one_plant_ode p7 (1/10) 1 1 1 1).map Prod.fst
      = (List.range 11).map (fun k => (k : ℝ) * (1/10))) ∧
    (one_plant_ode p7 (1/10) 1 1 1 1).Forall
      (fun s => 0 < s.2.1 ∧ 0 < s.2.2.1 ∧ 0 < s.2.2.2) := by
  have hn : n_steps ((1:ℝ)/10) 1 = 10 := by
    unfold n_steps
    rw [show (1:ℝ) / (1/10) = 10 by norm_num, Nat.floor_eq_iff (by norm_num)]
    norm_num
  refine ⟨?_, ?_, ?_⟩
  · simp only [one_plant_ode, integrate_const, hn, List.length_map, List.length_range]
  · simp only [one_plant_ode, integrate_const, hn, List.map_map]
    rfl
  · rw [List.forall_iff_forall_mem]
    intro s hs
    simp only [one_plant_ode, integrate_const, hn] at hs
    obtain ⟨k, hk, rfl⟩ := List.mem_map.mp hs
    have hk11 : k < 11 := List.mem_range.mp hk
    have hchk : stepChk k = true :=
      List.all_eq_true.mp stepChk_all k (List.mem_range.mpr hk11)
    obtain ⟨hok, hp1, hp2, hp3⟩ := stepChk_split hchk
    have hm := trajI7_sound k hok
    exact ⟨memZ_pos hm.1 hp1, memZ_pos hm.2.1 hp2, memZ_pos hm.2.2 hp3⟩

/-- Witness for `land_symmetry`: the §8 two-identical-plant scenario
(`u = 1`, `X = 1`, `Y0 = [1/2, 1/2]`, `B0 = [1/10, 1/10]`), after three
steps of size `1/10`, has equal rows for the two plants. -/
theorem land_symmetry_witness :
    trajStates (landRHS landP2) (fun _ => ((1:ℝ)/2, (1:ℝ)/10)) (1/10) 3 0 =
      trajStates (landRHS landP2) (fun _ => ((1:ℝ)/2, (1:ℝ)/10)) (1/10) 3 1 :=
  (land_symmetry landP2 0 1 ⟨rfl, rfl, rfl, rfl, rfl, rfl, rfl, rfl⟩
    (fun _ => ((1:ℝ)/2, (1:ℝ)/10)) rfl (1/10) 1).1 3

/-- Witness for `land_boundary_outflow` on a two-plant landscape with
`Y_0 = B_0 = 1/2`. -/
theorem land_boundary_outflow_witness :
    ((![((1:ℝ)/2, (1:ℝ)/2), (0, 0)] : Fin 2 → ℝ × ℝ) 0).1 +
      ((![((1:ℝ)/2, (1:ℝ)/2), (0, 0)] : Fin 2 → ℝ × ℝ) 0).2 = 1 ∧
    (landRHS landP2 ![((1:ℝ)/2, (1:ℝ)/2), (0, 0)] 0 0).1 +
      (landRHS landP2 ![((1:ℝ)/2, (1:ℝ)/2), (0, 0)] 0 0).2 = -(landP2.m 0) := by
  have hb : ((![((1:ℝ)/2, (1:ℝ)/2), (0, 0)] : Fin 2 → ℝ × ℝ) 0).1 +
      ((![((1:ℝ)/2, (1:ℝ)/2), (0, 0)] : Fin 2 → ℝ × ℝ) 0).2 = 1 := by
    norm_num
  exact ⟨hb, (land_boundary_outflow landP2 ![((1:ℝ)/2, (1:ℝ)/2), (0, 0)] 0 0 hb).2.2.1⟩

end SweetSour
